import Mathlib

/-!
Shallow embedding of the peer-to-peer messaging core of the repository:
`DataChannel` (src/src/main/generic/network/DataChannel.js) and `PeerChannel`
(src/unnamed/part_001).  Byte strings are modelled as `List Nat`, the JavaScript
`Map` as an association list with JS `Map.set` / `Map.delete` semantics, and the
`Timers` helper as an association list from string keys to the armed
expectation together with its delay.  All definitions are computable so that
claims can be evaluated on concrete inputs.
-/

namespace Proto

/-- `DataChannel.CHUNK_SIZE_MAX = 1024 * 16` (DataChannel.js line 273). -/
def CHUNK_SIZE_MAX : Nat := 1024 * 16

/-- `DataChannel.MESSAGE_SIZE_MAX = 10 * 1024 * 1024` (DataChannel.js line 274). -/
def MESSAGE_SIZE_MAX : Nat := 10 * 1024 * 1024

/-- `DataChannel.CHUNK_TIMEOUT = 1000 * 5` (DataChannel.js line 275). -/
def CHUNK_TIMEOUT : Nat := 1000 * 5

/-- `DataChannel.MESSAGE_TIMEOUT` (DataChannel.js line 276). -/
def MESSAGE_TIMEOUT : Nat := (MESSAGE_SIZE_MAX / CHUNK_SIZE_MAX) * CHUNK_TIMEOUT

/-- Modelled from the spec: `NumberUtils.UINT8_MAX` is the tag modulus, fixed
to 255 by the spec (the `NumberUtils` module itself is not under src/). -/
def UINT8_MAX : Nat := 255

section AssocList

variable {κ α : Type} [DecidableEq κ]

/-- Lookup in an association list, mirroring JavaScript `Map.get`. -/
def alookup : List (κ × α) → κ → Option α
  | [], _ => none
  | p :: rest, k => if p.1 = k then some p.2 else alookup rest k

/-- Insert-or-replace, mirroring JavaScript `Map.set` (replaces in place,
otherwise appends at the end, preserving insertion order). -/
def aset : List (κ × α) → κ → α → List (κ × α)
  | [], k, v => [(k, v)]
  | p :: rest, k, v => if p.1 = k then (k, v) :: rest else p :: aset rest k v

/-- Key removal, mirroring JavaScript `Map.delete`. -/
def adelete : List (κ × α) → κ → List (κ × α)
  | [], _ => []
  | p :: rest, k => if p.1 = k then adelete rest k else p :: adelete rest k

end AssocList

/-- `ExpectedMessage` (DataChannel.js lines 279-293).  The JavaScript
`timeoutCallback` closure is represented by the identifier `cb`; invoking it is
observable as a `callback cb` event. -/
structure ExpectedMessage where
  types : List Nat
  cb : Nat
  msgTimeout : Nat
  chunkTimeout : Nat
deriving DecidableEq, Repr

/-- `this.id = types.join(':')` (DataChannel.js line 287). -/
def ExpectedMessage.id (e : ExpectedMessage) : String :=
  String.intercalate ":" (e.types.map toString)

/-- The timer key `chunk-<id>` used throughout DataChannel.js. -/
def chunkKey (e : ExpectedMessage) : String := "chunk-" ++ e.id

/-- The timer key `msg-<id>` used throughout DataChannel.js. -/
def msgKey (e : ExpectedMessage) : String := "msg-" ++ e.id

/-- `DataChannel.ReadyState` (DataChannel.js lines 298-303). -/
inductive ReadyState where
  | CONNECTING
  | OPEN
  | CLOSING
  | CLOSED
deriving DecidableEq, Repr

/-- Observable events of a DataChannel, plus `callback cb` marking the
invocation of an expectation's timeout callback. -/
inductive DCEvent where
  | message (bytes : List Nat)
  | chunk (partial0 : List Nat)
  | error (msg : String)
  | close
  | callback (cb : Nat)
deriving DecidableEq, Repr

/-- The `SerialBuffer` used for reassembly: `cap` is the allocated size
(`byteLength`), `data` the bytes written so far (`writePos = data.length`). -/
structure ReassemblyBuffer where
  cap : Nat
  data : List Nat
deriving DecidableEq, Repr

/-- A timer entry: the expectation bound into `_onTimeout` plus the delay. -/
def TimerEntry := ExpectedMessage × Nat
deriving DecidableEq, Repr

/-- The mutable state of a `DataChannel` (DataChannel.js lines 5-30). -/
structure DCState where
  buffer : Option ReassemblyBuffer
  msgType : Nat
  receivingTag : Int
  readyState : ReadyState
  expected : List (Nat × ExpectedMessage)
  timers : List (String × TimerEntry)
  lastChunkReceivedAt : Nat
deriving DecidableEq, Repr

/-- A freshly constructed, open DataChannel (constructor, lines 5-30; the
`readyState` of a connected transport is OPEN). -/
def freshDC : DCState :=
  { buffer := none, msgType := 0, receivingTag := -1, readyState := ReadyState.OPEN,
    expected := [], timers := [], lastChunkReceivedAt := 0 }

/-- `_error` (lines 102-106) fires `error` and calls `close()`; `close` is
abstract in DataChannel.js and modelled from the spec as transitioning the
channel to CLOSED and triggering `_onClose` (lines 92-96), which clears all
timers and fires `close`. -/
def dcError (s : DCState) (msg : String) : DCState × List DCEvent :=
  ({ s with readyState := ReadyState.CLOSED, timers := [] },
   [DCEvent.error msg, DCEvent.close])

/-- `isExpectingMessage` (lines 36-38). -/
def isExpectingMessage (s : DCState) (ty : Nat) : Bool :=
  (alookup s.expected ty).isSome

/-- `confirmExpectedMessage` (lines 44-57). -/
def confirmExpectedMessage (s : DCState) (ty : Nat) (success : Bool) :
    DCState × List DCEvent :=
  match alookup s.expected ty with
  | none => (s, [])
  | some e =>
    let timers1 := adelete (adelete s.timers (chunkKey e)) (msgKey e)
    let expected1 := e.types.foldl adelete s.expected
    ({ s with timers := timers1, expected := expected1 },
     if success then [] else [DCEvent.callback e.cb])

/-- `expectMessage` (lines 65-80). -/
def expectMessage (s : DCState) (types : List Nat) (cb msgTimeout chunkTimeout : Nat) :
    DCState :=
  if types.length = 0 then s
  else
    let e : ExpectedMessage :=
      { types := types, cb := cb, msgTimeout := msgTimeout, chunkTimeout := chunkTimeout }
    let expected1 := types.foldl (fun m t => aset m t e) s.expected
    let timers1 := aset (aset s.timers (chunkKey e) (e, chunkTimeout)) (msgKey e) (e, msgTimeout)
    { s with expected := expected1, timers := timers1 }

/-- The `ExpectedMessage` built by `expectMessage` (DataChannel.js line 72). -/
def mkExp (types : List Nat) (cb mt ct : Nat) : ExpectedMessage :=
  { types := types, cb := cb, msgTimeout := mt, chunkTimeout := ct }

/-- `_onTimeout` (lines 199-213): clear both timers, drop all map entries of
the expectation, invoke its callback, then null the reassembly buffer. -/
def onTimeout (s : DCState) (e : Option ExpectedMessage) : DCState × List DCEvent :=
  match e with
  | some e =>
    let timers1 := adelete (adelete s.timers (chunkKey e)) (msgKey e)
    let expected1 := e.types.foldl adelete s.expected
    ({ s with timers := timers1, expected := expected1, buffer := none },
     [DCEvent.callback e.cb])
  | none => ({ s with buffer := none }, [])

/-- Modelled from the spec: the fixed 4-byte magic constant prefixing every
frame (spec section 4.1; the `Message` wire codec is not under src/).  Its
concrete value is immaterial to the claims below. -/
def magicBytes : List Nat := [66, 4, 32, 66]

/-- Big-endian 32-bit read of the first four bytes. -/
def readUint32BE : List Nat → Nat
  | b0 :: b1 :: b2 :: b3 :: _ => b0 * 16777216 + b1 * 65536 + b2 * 256 + b3
  | _ => 0

/-- Modelled from the spec: `Message.peekLength` reads the 4-byte big-endian
length field at offset 5 of the frame header
(`magic (4 B) || type (1 B) || length (4 B) || checksum (4 B) || payload`,
spec section 4.1) and fails with `Malformed` (here: `none`, caught by the
enclosing try in `_onMessage`) when the magic mismatches or the buffer is too
short; the `Message` module is not under src/. -/
def peekLength (buf : List Nat) : Option Nat :=
  if buf.take 4 = magicBytes ∧ 9 ≤ buf.length then some (readUint32BE (buf.drop 5))
  else none

/-- Modelled from the spec: `Message.peekType` reads the type byte at offset 4
of the frame header, failing like `peekLength` on a malformed prefix
(spec section 4.1; the `Message` module is not under src/). -/
def peekType (buf : List Nat) : Option Nat :=
  if buf.take 4 = magicBytes ∧ 5 ≤ buf.length then some (buf.getD 4 0)
  else none

/-- The part of `_onMessage` after the new-message detection block
(DataChannel.js lines 152-189): the null-buffer soft drop, the tag check, the
overrun check, the write, and the completion / chunk-timer-reset branches. -/
def onMessageTail (s : DCState) (now tag : Nat) (chunk : List Nat) :
    DCState × List DCEvent :=
  match s.buffer with
  | none => (s, [])
  | some b =>
    if (tag : Int) ≠ s.receivingTag then
      dcError s "Received message with wrong message tag"
    else
      let remainingBytes := b.cap - b.data.length
      if remainingBytes < chunk.length then
        dcError s "Received chunk larger than remaining bytes to read, discarding"
      else
        let data2 := b.data ++ chunk
        let s2 := { s with lastChunkReceivedAt := now }
        match b.cap - data2.length, alookup s.expected s.msgType with
        | 0, _ => ({ s2 with buffer := none }, [DCEvent.message data2])
        | _ + 1, some e =>
          ({ s2 with buffer := some { cap := b.cap, data := data2 },
                     timers := aset s2.timers (chunkKey e) (e, e.chunkTimeout) },
           [DCEvent.chunk data2])
        | _ + 1, none =>
          ({ s2 with buffer := some { cap := b.cap, data := data2 } },
           [DCEvent.chunk data2])

/-- `_onMessage` (DataChannel.js lines 112-193).  A `peekLength` / `peekType`
failure raises an exception in the source, caught by the surrounding try and
routed to `_error`. -/
def onMessage (s : DCState) (now : Nat) (raw : List Nat) : DCState × List DCEvent :=
  if s.readyState ≠ ReadyState.OPEN then (s, [])
  else if raw.length = 0 then (s, [])
  else if CHUNK_SIZE_MAX < raw.length then
    dcError s "Received chunk larger than maximum chunk size, discarding"
  else
    let tag := raw.headD 0
    let chunk := raw.tail
    if s.buffer = none ∧ (tag : Int) = (s.receivingTag + 1) % (UINT8_MAX : Int) then
      match peekLength chunk with
      | none => dcError s "Error occurred while parsing incoming message"
      | some messageSize =>
        if MESSAGE_SIZE_MAX < messageSize then
          dcError s "Received message with excessive message size"
        else
          match peekType chunk with
          | none =>
            dcError { s with buffer := some { cap := messageSize, data := [] },
                             receivingTag := (tag : Int) }
              "Error occurred while parsing incoming message"
          | some ty =>
            onMessageTail
              { s with buffer := some { cap := messageSize, data := [] },
                       receivingTag := (tag : Int), msgType := ty }
              now tag chunk
    else
      onMessageTail s now tag chunk

/-- Feeding a sequence of transport frames into a DataChannel, accumulating
the fired events in order. -/
def feed (s : DCState) (now : Nat) : List (List Nat) → DCState × List DCEvent
  | [] => (s, [])
  | c :: cs =>
    let r1 := onMessage s now c
    let r2 := feed r1.1 now cs
    (r2.1, r1.2 ++ r2.2)

/-- Recognizer for `message` events. -/
def isMessageEv : DCEvent → Bool
  | DCEvent.message _ => true
  | _ => false

/-- Recognizer for `error` events. -/
def isErrorEv : DCEvent → Bool
  | DCEvent.error _ => true
  | _ => false

/-- Abbreviation for a DataChannel state that is mid-reassembly (Assembling)
with no registered expectations. -/
def asmState (cap : Nat) (data : List Nat) (ty tag : Nat)
    (tmrs : List (String × TimerEntry)) (last : Nat) : DCState :=
  { buffer := some { cap := cap, data := data }, msgType := ty,
    receivingTag := (tag : Int), readyState := ReadyState.OPEN,
    expected := [], timers := tmrs, lastChunkReceivedAt := last }

/-- `_sendChunked` (DataChannel.js lines 231-251): emit frames of
`CHUNK_SIZE_MAX` bytes (one tag byte plus `CHUNK_SIZE_MAX - 1` payload bytes)
while at least `CHUNK_SIZE_MAX - 1` payload bytes remain, then one final frame
holding the rest. -/
def sendChunked (tag : Nat) (msg : List Nat) : List (List Nat) :=
  if msg = [] then []
  else if CHUNK_SIZE_MAX ≤ msg.length + 1 then
    (tag :: msg.take (CHUNK_SIZE_MAX - 1)) :: sendChunked tag (msg.drop (CHUNK_SIZE_MAX - 1))
  else [tag :: msg]
termination_by msg.length
decreasing_by
  simp only [List.length_drop]
  have h1 : CHUNK_SIZE_MAX ≤ msg.length + 1 := by assumption
  simp [CHUNK_SIZE_MAX] at h1 ⊢
  omega

/-- The sender-side state: `_sendingTag` (DataChannel.js line 20). -/
structure SendState where
  sendingTag : Nat
deriving DecidableEq, Repr

/-- A fresh sender (`_sendingTag = 0`, constructor line 20). -/
def freshSend : SendState := { sendingTag := 0 }

/-- `send` (DataChannel.js lines 218-224).  The `Assert.that` throws on an
oversized message, modelled by `none`. -/
def send (st : SendState) (msg : List Nat) : Option (SendState × List (List Nat)) :=
  if msg.length ≤ MESSAGE_SIZE_MAX then
    some ({ sendingTag := (st.sendingTag + 1) % UINT8_MAX }, sendChunked st.sendingTag msg)
  else none

/-- The trace of chunks emitted by a sequence of `send` calls, each chunk
paired with the index of the message it belongs to. -/
def sendTrace (tag idx : Nat) : List (List Nat) → List (Nat × List Nat)
  | [] => []
  | m :: rest =>
    (sendChunked tag m).map (fun c => (idx, c)) ++
      sendTrace ((tag + 1) % UINT8_MAX) (idx + 1) rest

/-- The tag byte of an emitted chunk (its first byte). -/
def chunkTag (c : List Nat) : Nat := c.headD 0

/-! ## PeerChannel (src/unnamed/part_001) -/

/-- Modelled from the spec: `Message.Type.REJECT`, the stable wire constant of
the REJECT variant (the `Message` module is not under src/); its numeric value
is immaterial to the claims below. -/
def MessageTypeREJECT : Nat := 10

/-- Modelled from the spec: `CloseType.FAILED_TO_PARSE_MESSAGE_TYPE` (the
`CloseType` enumeration is not under src/); its numeric value is immaterial. -/
def FAILED_TO_PARSE_MESSAGE_TYPE : Nat := 17

/-- Modelled from the spec: `RejectMessage.Code.REJECT_MALFORMED` (the
`RejectMessage` module is not under src/); its numeric value is immaterial. -/
def REJECT_MALFORMED : Nat := 1

/-- Outcome of the `peekType` / `parse` prologue of `PeerChannel._onMessage`
(part_001 lines 23-27): the peek threw (leaving `type = null`), the parse threw
after a successful peek, or the parse returned (a message of some type, or a
falsy value). -/
inductive RecvOutcome where
  | peekThrew
  | parseThrew (peeked : Nat)
  | parsed (peeked : Nat) (msg : Option Nat)
deriving DecidableEq, Repr

/-- Observable actions of `PeerChannel._onMessage`. -/
inductive PCAction where
  | confirmExpected (ty : Option Nat) (success : Bool)
  | closeChannel (closeType : Nat)
  | sendReject (ty : Nat) (code : Nat)
  | dispatch (ty : Nat)
  | messageLog (ty : Nat)
  | logWarning
deriving DecidableEq, Repr

/-- `PeerChannel._onMessage` (part_001 lines 19-61) as the sequence of actions
it performs, driven by the parse outcome and by whether a subscriber of the
dispatched event throws. -/
def peerOnMessage (o : RecvOutcome) (handlerThrows : Bool) : List PCAction :=
  match o with
  | RecvOutcome.peekThrew =>
    [PCAction.confirmExpected none false,
     PCAction.closeChannel FAILED_TO_PARSE_MESSAGE_TYPE]
  | RecvOutcome.parseThrew t =>
    if t = MessageTypeREJECT then
      [PCAction.confirmExpected (some t) false,
       PCAction.closeChannel FAILED_TO_PARSE_MESSAGE_TYPE]
    else
      [PCAction.confirmExpected (some t) false,
       PCAction.sendReject t REJECT_MALFORMED]
  | RecvOutcome.parsed _ none => []
  | RecvOutcome.parsed t (some mty) =>
    [PCAction.confirmExpected (some t) true, PCAction.dispatch mty] ++
      (if handlerThrows then [PCAction.logWarning] else [PCAction.messageLog mty])

/-! ## Association list lemmas -/

section AssocListLemmas

variable {κ α : Type} [DecidableEq κ]

theorem alookup_aset_self (m : List (κ × α)) (k : κ) (v : α) :
    alookup (aset m k v) k = some v := by
  induction m with
  | nil => simp [aset, alookup]
  | cons p rest ih =>
    by_cases h : p.1 = k
    · simp [aset, h, alookup]
    · simp [aset, h, alookup, ih]

theorem alookup_aset_ne (m : List (κ × α)) (k k2 : κ) (v : α) (h : k2 ≠ k) :
    alookup (aset m k v) k2 = alookup m k2 := by
  induction m with
  | nil => simp [aset, alookup, Ne.symm h]
  | cons p rest ih =>
    by_cases hp : p.1 = k
    · subst hp
      simp [aset, alookup, Ne.symm h]
    · simp [aset, hp, alookup, ih]

theorem alookup_adelete_self (m : List (κ × α)) (k : κ) :
    alookup (adelete m k) k = none := by
  induction m with
  | nil => simp [adelete, alookup]
  | cons p rest ih =>
    by_cases h : p.1 = k
    · simp [adelete, h, ih]
    · simp [adelete, h, alookup, ih]

theorem alookup_adelete_ne (m : List (κ × α)) (k k2 : κ) (h : k2 ≠ k) :
    alookup (adelete m k) k2 = alookup m k2 := by
  induction m with
  | nil => simp [adelete]
  | cons p rest ih =>
    by_cases hp : p.1 = k
    · subst hp
      simp [adelete, alookup, Ne.symm h, ih]
    · simp [adelete, hp, alookup, ih]

theorem alookup_adelete_none (m : List (κ × α)) (k k2 : κ)
    (h : alookup m k2 = none) : alookup (adelete m k) k2 = none := by
  by_cases hk : k2 = k
  · subst hk; exact alookup_adelete_self m k2
  · rw [alookup_adelete_ne m k k2 hk]; exact h

theorem alookup_foldl_adelete_none (l : List κ) (m : List (κ × α)) (t : κ)
    (h : alookup m t = none) : alookup (l.foldl adelete m) t = none := by
  induction l generalizing m with
  | nil => exact h
  | cons k rest ih => exact ih (adelete m k) (alookup_adelete_none m k t h)

theorem alookup_foldl_adelete_mem (l : List κ) (m : List (κ × α)) (t : κ)
    (h : t ∈ l) : alookup (l.foldl adelete m) t = none := by
  induction l generalizing m with
  | nil => cases h
  | cons k rest ih =>
    rcases List.mem_cons.mp h with h1 | h1
    · subst h1
      exact alookup_foldl_adelete_none rest (adelete m t) t (alookup_adelete_self m t)
    · exact ih (adelete m k) h1

theorem alookup_foldl_adelete_not_mem (l : List κ) (m : List (κ × α)) (t : κ)
    (h : t ∉ l) : alookup (l.foldl adelete m) t = alookup m t := by
  induction l generalizing m with
  | nil => rfl
  | cons k rest ih =>
    have h1 : t ≠ k := fun h2 => h (h2 ▸ List.mem_cons_self k rest)
    have h2 : t ∉ rest := fun h2 => h (List.mem_cons_of_mem k h2)
    rw [List.foldl_cons, ih (adelete m k) h2, alookup_adelete_ne m k t h1]

theorem alookup_aset_some (m : List (κ × α)) (k t : κ) (v : α)
    (h : alookup m t = some v) : alookup (aset m k v) t = some v := by
  by_cases hk : t = k
  · subst hk; exact alookup_aset_self m t v
  · rw [alookup_aset_ne m k t v hk]; exact h

theorem alookup_foldl_aset_some (l : List κ) (m : List (κ × α)) (t : κ) (v : α)
    (h : alookup m t = some v) :
    alookup (l.foldl (fun m2 k => aset m2 k v) m) t = some v := by
  induction l generalizing m with
  | nil => exact h
  | cons k rest ih => exact ih (aset m k v) (alookup_aset_some m k t v h)

theorem alookup_foldl_aset_mem (l : List κ) (m : List (κ × α)) (t : κ) (v : α)
    (h : t ∈ l) : alookup (l.foldl (fun m2 k => aset m2 k v) m) t = some v := by
  induction l generalizing m with
  | nil => cases h
  | cons k rest ih =>
    rcases List.mem_cons.mp h with h1 | h1
    · subst h1
      exact alookup_foldl_aset_some rest (aset m t v) t v (alookup_aset_self m t v)
    · exact ih (aset m k v) h1

theorem alookup_foldl_aset_not_mem (l : List κ) (m : List (κ × α)) (t : κ) (v : α)
    (h : t ∉ l) : alookup (l.foldl (fun m2 k => aset m2 k v) m) t = alookup m t := by
  induction l generalizing m with
  | nil => rfl
  | cons k rest ih =>
    have h1 : t ≠ k := fun h2 => h (h2 ▸ List.mem_cons_self k rest)
    have h2 : t ∉ rest := fun h2 => h (List.mem_cons_of_mem k h2)
    rw [List.foldl_cons, ih (aset m k v) h2, alookup_aset_ne m k t v h1]

end AssocListLemmas

/-- The timer-key families `chunk-<id>` and `msg-<id>` are disjoint. -/
theorem chunkKey_ne_msgKey (e1 e2 : ExpectedMessage) : chunkKey e1 ≠ msgKey e2 := by
  intro h
  have h2 : ("chunk-" ++ e1.id).data = ("msg-" ++ e2.id).data := congrArg String.data h
  simp only [String.data_append] at h2
  simp only [List.cons_append, List.cons.injEq] at h2
  exact absurd h2.1 (by decide)

/-- The number of chunks `_sendChunked` emits is the number of
`CHUNK_SIZE_MAX - 1`-byte payload pieces of the message, rounded up. -/
theorem sendChunked_length (tag : Nat) (m : List Nat) :
    (sendChunked tag m).length = (m.length + (CHUNK_SIZE_MAX - 2)) / (CHUNK_SIZE_MAX - 1) := by
  rw [sendChunked]
  by_cases h0 : m = []
  · subst h0; simp [CHUNK_SIZE_MAX]
  · by_cases h1 : CHUNK_SIZE_MAX ≤ m.length + 1
    · rw [if_neg h0, if_pos h1]
      have ih := sendChunked_length tag (m.drop (CHUNK_SIZE_MAX - 1))
      rw [List.length_cons, ih, List.length_drop]
      simp only [CHUNK_SIZE_MAX] at h1 ⊢
      omega
    · rw [if_neg h0, if_neg h1]
      have hlen : m.length ≠ 0 := by simpa using h0
      simp only [CHUNK_SIZE_MAX] at h1 ⊢
      simp only [List.length_cons, List.length_nil]
      omega
termination_by m.length
decreasing_by
  simp only [List.length_drop]
  simp only [CHUNK_SIZE_MAX] at h1 ⊢
  omega

/-! ## Claims -/

/-- Claim C1: for every received frame whose parse fails, if the peeked type is
unknown (null) or equals REJECT, `PeerChannel` closes the channel with close
type `FAILED_TO_PARSE_MESSAGE_TYPE` and sends no outbound REJECT message;
otherwise it sends exactly one `REJECT(peekedType, REJECT_MALFORMED, err)` and
drops the frame without closing or dispatching. -/
theorem claimC1_reject_loop_policy (t : Nat) (hThrows : Bool) :
    (peerOnMessage RecvOutcome.peekThrew hThrows =
      [PCAction.confirmExpected none false,
       PCAction.closeChannel FAILED_TO_PARSE_MESSAGE_TYPE]) ∧
    (peerOnMessage (RecvOutcome.parseThrew MessageTypeREJECT) hThrows =
      [PCAction.confirmExpected (some MessageTypeREJECT) false,
       PCAction.closeChannel FAILED_TO_PARSE_MESSAGE_TYPE]) ∧
    (t ≠ MessageTypeREJECT →
      peerOnMessage (RecvOutcome.parseThrew t) hThrows =
        [PCAction.confirmExpected (some t) false,
         PCAction.sendReject t REJECT_MALFORMED]) := by
  refine ⟨rfl, by simp [peerOnMessage], fun h => by simp [peerOnMessage, h]⟩

theorem claimC1_witness :
    (3 : Nat) ≠ MessageTypeREJECT ∧
    peerOnMessage (RecvOutcome.parseThrew 3) false =
      [PCAction.confirmExpected (some 3) false,
       PCAction.sendReject 3 REJECT_MALFORMED] :=
  ⟨by decide, (claimC1_reject_loop_policy 3 false).2.2 (by decide)⟩

/-- Claim C9 (amended): for every successfully parsed message dispatched by
PeerChannel, a subscriber exception is caught and logged and does not close the
channel; the `message-log` event is fired for the message if and only if no
subscriber threw (the source fires it inside the same try block, after the
dispatch). -/
theorem claimC9_handler_errors (t mty : Nat) (hThrows : Bool) :
    (∀ c, PCAction.closeChannel c ∉ peerOnMessage (RecvOutcome.parsed t (some mty)) hThrows) ∧
    (hThrows = true → PCAction.logWarning ∈ peerOnMessage (RecvOutcome.parsed t (some mty)) hThrows) ∧
    (PCAction.messageLog mty ∈ peerOnMessage (RecvOutcome.parsed t (some mty)) hThrows ↔
      hThrows = false) := by
  cases hThrows <;> simp [peerOnMessage]

theorem claimC9_witness :
    PCAction.closeChannel FAILED_TO_PARSE_MESSAGE_TYPE ∉
      peerOnMessage (RecvOutcome.parsed 6 (some 6)) true ∧
    PCAction.logWarning ∈ peerOnMessage (RecvOutcome.parsed 6 (some 6)) true :=
  ⟨(claimC9_handler_errors 6 6 true).1 FAILED_TO_PARSE_MESSAGE_TYPE,
   (claimC9_handler_errors 6 6 true).2.1 rfl⟩

/-- Claim C9, counterexample to the claim as stated: when a subscriber of the
dispatched event throws, no `message-log` action is performed for that message
(the fire sits after the dispatch inside the same try block, part_001 lines
56-57), refuting that a `message-log` event is fired for every successfully
parsed dispatched message. -/
theorem claimC9_counterexample :
    PCAction.messageLog 6 ∉ peerOnMessage (RecvOutcome.parsed 6 (some 6)) true := by
  decide

/-- Claim C6: for every expectation whose chunk- or msg- timer expires, the
timeout handler removes the expectation's entries for all of its types (and
clears both of its timers), invokes its timeout callback exactly once, clears
the reassembly buffer, and does not close the channel. -/
theorem claimC6_timeout_policy (s : DCState) (e : ExpectedMessage) :
    (onTimeout s (some e)).1.buffer = none ∧
    (∀ t, t ∈ e.types → alookup (onTimeout s (some e)).1.expected t = none) ∧
    alookup (onTimeout s (some e)).1.timers (chunkKey e) = none ∧
    alookup (onTimeout s (some e)).1.timers (msgKey e) = none ∧
    (onTimeout s (some e)).2 = [DCEvent.callback e.cb] ∧
    (onTimeout s (some e)).1.readyState = s.readyState ∧
    DCEvent.close ∉ (onTimeout s (some e)).2 := by
  refine ⟨rfl, ?_, ?_, ?_, rfl, rfl, by simp [onTimeout]⟩
  · intro t ht
    exact alookup_foldl_adelete_mem e.types s.expected t ht
  · show alookup (adelete (adelete s.timers (chunkKey e)) (msgKey e)) (chunkKey e) = none
    rw [alookup_adelete_ne _ _ _ (chunkKey_ne_msgKey e e)]
    exact alookup_adelete_self s.timers (chunkKey e)
  · exact alookup_adelete_self (adelete s.timers (chunkKey e)) (msgKey e)

theorem claimC6_witness :
    (3 : Nat) ∈ (ExpectedMessage.mk [3, 4] 9 100 50).types ∧
    (onTimeout (expectMessage freshDC [3, 4] 9 100 50)
        (some (ExpectedMessage.mk [3, 4] 9 100 50))).1.buffer = none ∧
    alookup (onTimeout (expectMessage freshDC [3, 4] 9 100 50)
        (some (ExpectedMessage.mk [3, 4] 9 100 50))).1.expected 3 = none ∧
    (onTimeout (expectMessage freshDC [3, 4] 9 100 50)
        (some (ExpectedMessage.mk [3, 4] 9 100 50))).2 = [DCEvent.callback 9] := by
  have h := claimC6_timeout_policy (expectMessage freshDC [3, 4] 9 100 50)
    (ExpectedMessage.mk [3, 4] 9 100 50)
  exact ⟨by decide, h.1, h.2.1 3 (by decide), h.2.2.2.2.1⟩

/-- Claim C7: for every call `confirmExpectedMessage(type, success)`, if an
expectation is registered for `type`, both of its timers are cancelled, it is
removed from the map under every one of its types, and its timeout callback is
invoked exactly when `success = false`; if no expectation is registered, the
call leaves the channel state unchanged. -/
theorem claimC7_confirm_expected (s : DCState) (ty : Nat) (success : Bool) :
    (∀ e, alookup s.expected ty = some e →
      alookup (confirmExpectedMessage s ty success).1.timers (chunkKey e) = none ∧
      alookup (confirmExpectedMessage s ty success).1.timers (msgKey e) = none ∧
      (∀ t, t ∈ e.types →
        alookup (confirmExpectedMessage s ty success).1.expected t = none) ∧
      (confirmExpectedMessage s ty success).2 =
        (if success then [] else [DCEvent.callback e.cb])) ∧
    (alookup s.expected ty = none → confirmExpectedMessage s ty success = (s, [])) := by
  constructor
  · intro e he
    simp only [confirmExpectedMessage, he]
    refine ⟨?_, ?_, ?_, by trivial⟩
    · rw [alookup_adelete_ne _ _ _ (chunkKey_ne_msgKey e e)]
      exact alookup_adelete_self s.timers (chunkKey e)
    · exact alookup_adelete_self (adelete s.timers (chunkKey e)) (msgKey e)
    · intro t ht
      exact alookup_foldl_adelete_mem e.types s.expected t ht
  · intro he
    simp [confirmExpectedMessage, he]

theorem claimC7_witness :
    alookup (expectMessage freshDC [3, 4] 9 100 50).expected 3 =
      some (ExpectedMessage.mk [3, 4] 9 100 50) ∧
    alookup (confirmExpectedMessage (expectMessage freshDC [3, 4] 9 100 50) 3 false).1.expected 4 = none ∧
    (confirmExpectedMessage (expectMessage freshDC [3, 4] 9 100 50) 3 false).2 =
      [DCEvent.callback 9] := by
  have hl : alookup (expectMessage freshDC [3, 4] 9 100 50).expected 3 =
      some (ExpectedMessage.mk [3, 4] 9 100 50) := by decide
  have h := (claimC7_confirm_expected (expectMessage freshDC [3, 4] 9 100 50) 3 false).1
    (ExpectedMessage.mk [3, 4] 9 100 50) hl
  exact ⟨hl, h.2.2.1 4 (by decide), by simpa using h.2.2.2⟩

/-- Claim C8, counterexample to the claim as stated: registering `[1]` after
`[1, 2]` leaves the earlier expectation's map entry under type `2` in place,
and leaves the earlier expectation's timers (keyed by its own id `1:2`) armed,
so the earlier expectation can still fire against the channel. -/
theorem claimC8_counterexample :
    alookup (expectMessage (expectMessage freshDC [1, 2] 0 100 50) [1] 1 100 50).expected 2 =
      some (mkExp [1, 2] 0 100 50) ∧
    alookup (expectMessage (expectMessage freshDC [1, 2] 0 100 50) [1] 1 100 50).timers
        (chunkKey (mkExp [1, 2] 0 100 50)) = some (mkExp [1, 2] 0 100 50, 50) := by
  decide

/-- Claim C8 (amended): `expectMessage(types, ...)` with non-empty `types`
registers the new expectation under every type in `types` and arms both of its
timers; an existing expectation sharing a type is displaced only at the shared
types: its map entries under types outside the new list, and every timer whose
key differs from the new expectation's two keys (in particular the timers of an
old expectation with a different types list), remain in effect. -/
theorem claimC8_expect_message (s : DCState) (types : List Nat) (cb mt ct : Nat)
    (h : types ≠ []) :
    (∀ t, t ∈ types →
      alookup (expectMessage s types cb mt ct).expected t = some (mkExp types cb mt ct)) ∧
    alookup (expectMessage s types cb mt ct).timers (chunkKey (mkExp types cb mt ct)) =
      some (mkExp types cb mt ct, ct) ∧
    alookup (expectMessage s types cb mt ct).timers (msgKey (mkExp types cb mt ct)) =
      some (mkExp types cb mt ct, mt) ∧
    (∀ t, t ∉ types →
      alookup (expectMessage s types cb mt ct).expected t = alookup s.expected t) ∧
    (∀ k, k ≠ chunkKey (mkExp types cb mt ct) → k ≠ msgKey (mkExp types cb mt ct) →
      alookup (expectMessage s types cb mt ct).timers k = alookup s.timers k) := by
  have hne : ¬ types.length = 0 := by simpa using h
  simp only [mkExp, expectMessage, hne, if_false]
  refine ⟨?_, ?_, ?_, ?_, ?_⟩
  · intro t ht
    exact alookup_foldl_aset_mem types s.expected t (mkExp types cb mt ct) ht
  · rw [alookup_aset_ne _ _ _ _ (chunkKey_ne_msgKey _ _)]
    exact alookup_aset_self s.timers _ _
  · exact alookup_aset_self _ _ _
  · intro t ht
    exact alookup_foldl_aset_not_mem types s.expected t (mkExp types cb mt ct) ht
  · intro k h1 h2
    rw [alookup_aset_ne _ _ _ _ h2, alookup_aset_ne _ _ _ _ h1]

theorem claimC8_witness :
    ([3, 4] : List Nat) ≠ [] ∧
    alookup (expectMessage freshDC [3, 4] 9 100 50).expected 4 = some (mkExp [3, 4] 9 100 50) ∧
    alookup (expectMessage freshDC [3, 4] 9 100 50).timers (msgKey (mkExp [3, 4] 9 100 50)) =
      some (mkExp [3, 4] 9 100 50, 100) := by
  have h := claimC8_expect_message freshDC [3, 4] 9 100 50 (by decide)
  exact ⟨by decide, h.1 4 (by decide), h.2.2.1⟩

/-- Claim C10: for every `msg` with `|msg| <= MESSAGE_SIZE_MAX`, `send(msg)`
hands exactly `ceil(|msg| / (CHUNK_SIZE_MAX - 1))` chunks to `sendChunk`; a
zero-length message produces zero chunks while `sendingTag` is still advanced
by one modulo `UINT8_MAX = 255`. -/
theorem claimC10_send_chunk_count (st : SendState) (m : List Nat)
    (h : m.length ≤ MESSAGE_SIZE_MAX) :
    send st m = some ({ sendingTag := (st.sendingTag + 1) % UINT8_MAX },
                      sendChunked st.sendingTag m) ∧
    (sendChunked st.sendingTag m).length =
      (m.length + (CHUNK_SIZE_MAX - 2)) / (CHUNK_SIZE_MAX - 1) ∧
    (m = [] → sendChunked st.sendingTag m = []) := by
  refine ⟨by simp [send, h], sendChunked_length st.sendingTag m, ?_⟩
  intro h2
  subst h2
  rw [sendChunked]
  simp

theorem claimC10_witness :
    send freshSend [] = some ({ sendingTag := (freshSend.sendingTag + 1) % UINT8_MAX },
                              sendChunked freshSend.sendingTag []) ∧
    (sendChunked freshSend.sendingTag []).length =
      (List.length ([] : List Nat) + (CHUNK_SIZE_MAX - 2)) / (CHUNK_SIZE_MAX - 1) ∧
    (([] : List Nat) = [] → sendChunked freshSend.sendingTag [] = []) :=
  claimC10_send_chunk_count freshSend [] (by decide)

/-- Inversion of a successful `peekLength`. -/
theorem peekLength_inv (b : List Nat) (n : Nat) (h : peekLength b = some n) :
    b.take 4 = magicBytes ∧ 9 ≤ b.length ∧ n = readUint32BE (b.drop 5) := by
  unfold peekLength at h
  by_cases hc : b.take 4 = magicBytes ∧ 9 ≤ b.length
  · rw [if_pos hc] at h
    injection h with h2
    exact ⟨hc.1, hc.2, h2.symm⟩
  · rw [if_neg hc] at h
    cases h

/-- A frame prefix long enough for `peekLength` also satisfies `peekType`. -/
theorem peekType_of_peekLength (b : List Nat) (n : Nat) (h : peekLength b = some n) :
    peekType b = some (b.getD 4 0) := by
  obtain ⟨h1, h2, _⟩ := peekLength_inv b n h
  unfold peekType
  rw [if_pos ⟨h1, by omega⟩]

/-- `_onMessage` on a continuation chunk that does not yet complete the
in-flight message: the chunk is appended, a `chunk` event fires, and only the
chunk timer of a matching expectation may be re-armed. -/
theorem onMessageTail_incomplete (s : DCState) (b : ReassemblyBuffer)
    (now tag : Nat) (chunk : List Nat)
    (hbuf : s.buffer = some b) (htag : (tag : Int) = s.receivingTag)
    (hlt : b.data.length + chunk.length < b.cap) :
    ∃ timers2, onMessageTail s now tag chunk =
      ({ s with buffer := some { cap := b.cap, data := b.data ++ chunk },
                lastChunkReceivedAt := now, timers := timers2 },
       [DCEvent.chunk (b.data ++ chunk)]) ∧
      (alookup s.expected s.msgType = none → timers2 = s.timers) := by
  have hk : ∃ k, b.cap - (b.data ++ chunk).length = k + 1 := by
    simp only [List.length_append]
    exact ⟨b.cap - (b.data.length + chunk.length) - 1, by omega⟩
  obtain ⟨k, hk⟩ := hk
  simp only [onMessageTail, hbuf]
  rw [if_neg (by simp [htag]), if_neg (by omega), hk]
  rcases h2 : alookup s.expected s.msgType with _ | e
  · exact ⟨s.timers, rfl, fun _ => rfl⟩
  · exact ⟨aset s.timers (chunkKey e) (e, e.chunkTimeout), rfl, by simp [h2]⟩

/-- `_onMessage` on the chunk that completes the in-flight message: the buffer
empties and a single `message` event carrying the whole reassembled byte
string fires. -/
theorem onMessageTail_complete (s : DCState) (b : ReassemblyBuffer)
    (now tag : Nat) (chunk : List Nat)
    (hbuf : s.buffer = some b) (htag : (tag : Int) = s.receivingTag)
    (heq : b.data.length + chunk.length = b.cap) :
    onMessageTail s now tag chunk =
      ({ s with buffer := none, lastChunkReceivedAt := now },
       [DCEvent.message (b.data ++ chunk)]) := by
  have hk : b.cap - (b.data ++ chunk).length = 0 := by
    simp only [List.length_append]
    omega
  simp only [onMessageTail, hbuf]
  rw [if_neg (by simp [htag]), if_neg (by omega), hk]

/-- `_onMessage` on the first chunk of a new message whose declared size is
admissible: allocate the buffer, record tag and type, then fall through to the
common continuation handling. -/
theorem onMessage_detect (s : DCState) (now tag : Nat) (chunk : List Nat) (sz : Nat)
    (hopen : s.readyState = ReadyState.OPEN) (hbuf : s.buffer = none)
    (htag : (tag : Int) = (s.receivingTag + 1) % (UINT8_MAX : Int))
    (hlen : chunk.length + 1 ≤ CHUNK_SIZE_MAX)
    (hpeek : peekLength chunk = some sz) (hsz : sz ≤ MESSAGE_SIZE_MAX) :
    onMessage s now (tag :: chunk) =
      onMessageTail
        { s with buffer := some { cap := sz, data := [] },
                 receivingTag := (tag : Int), msgType := chunk.getD 4 0 }
        now tag chunk := by
  simp only [onMessage, List.headD_cons, List.tail_cons, List.length_cons, hpeek,
    peekType_of_peekLength chunk sz hpeek]
  rw [if_neg (by simp [hopen]), if_neg (by omega), if_neg (by omega),
    if_pos ⟨hbuf, htag⟩, if_neg (by omega)]

/-- `_onMessage` on the first chunk of a new message whose declared size
exceeds the bound: `_error` fires and the channel closes with no buffer
allocated. -/
theorem onMessage_detect_oversize (s : DCState) (now tag : Nat) (chunk : List Nat)
    (sz : Nat)
    (hopen : s.readyState = ReadyState.OPEN) (hbuf : s.buffer = none)
    (htag : (tag : Int) = (s.receivingTag + 1) % (UINT8_MAX : Int))
    (hlen : chunk.length + 1 ≤ CHUNK_SIZE_MAX)
    (hpeek : peekLength chunk = some sz) (hsz : MESSAGE_SIZE_MAX < sz) :
    onMessage s now (tag :: chunk) =
      dcError s "Received message with excessive message size" := by
  simp only [onMessage, List.headD_cons, List.tail_cons, List.length_cons, hpeek]
  rw [if_neg (by simp [hopen]), if_neg (by omega), if_neg (by omega),
    if_pos ⟨hbuf, htag⟩, if_pos hsz]

/-- Claim C3: for every first chunk of a new message, a declared message
length exceeding `MESSAGE_SIZE_MAX` makes the channel fire `error` and close
without allocating a reassembly buffer, while a declared length of exactly
`MESSAGE_SIZE_MAX` is accepted with a buffer of that size allocated. -/
theorem claimC3_size_bound (s : DCState) (now tag : Nat) (chunk : List Nat) (sz : Nat)
    (hopen : s.readyState = ReadyState.OPEN) (hbuf : s.buffer = none)
    (htag : (tag : Int) = (s.receivingTag + 1) % (UINT8_MAX : Int))
    (hlen : (tag :: chunk).length ≤ CHUNK_SIZE_MAX)
    (hpeek : peekLength chunk = some sz) :
    (MESSAGE_SIZE_MAX < sz →
      (onMessage s now (tag :: chunk)).1.buffer = none ∧
      (onMessage s now (tag :: chunk)).1.readyState = ReadyState.CLOSED ∧
      (onMessage s now (tag :: chunk)).2 =
        [DCEvent.error "Received message with excessive message size", DCEvent.close]) ∧
    (sz = MESSAGE_SIZE_MAX →
      (onMessage s now (tag :: chunk)).1.buffer =
        some { cap := MESSAGE_SIZE_MAX, data := chunk } ∧
      (onMessage s now (tag :: chunk)).1.readyState = ReadyState.OPEN ∧
      (onMessage s now (tag :: chunk)).2 = [DCEvent.chunk chunk]) := by
  have hlen2 : chunk.length + 1 ≤ CHUNK_SIZE_MAX := by
    simpa using hlen
  constructor
  · intro hsz
    rw [onMessage_detect_oversize s now tag chunk sz hopen hbuf htag hlen2 hpeek hsz]
    exact ⟨hbuf, rfl, rfl⟩
  · intro hsz
    subst hsz
    rw [onMessage_detect s now tag chunk MESSAGE_SIZE_MAX hopen hbuf htag hlen2 hpeek le_rfl]
    have hchunk : chunk.length < MESSAGE_SIZE_MAX := by
      simp only [CHUNK_SIZE_MAX] at hlen2
      simp only [MESSAGE_SIZE_MAX]
      omega
    obtain ⟨timers2, heq, _⟩ := onMessageTail_incomplete
      { s with buffer := some { cap := MESSAGE_SIZE_MAX, data := [] },
               receivingTag := (tag : Int), msgType := chunk.getD 4 0 }
      { cap := MESSAGE_SIZE_MAX, data := [] } now tag chunk rfl rfl (by simpa using hchunk)
    rw [heq]
    exact ⟨by simp, by simp [hopen], by simp⟩

theorem claimC3_witness :
    peekLength [66, 4, 32, 66, 7, 0, 160, 0, 1] = some (MESSAGE_SIZE_MAX + 1) ∧
    (onMessage freshDC 0 (0 :: [66, 4, 32, 66, 7, 0, 160, 0, 1])).2 =
      [DCEvent.error "Received message with excessive message size", DCEvent.close] ∧
    peekLength [66, 4, 32, 66, 7, 0, 160, 0, 0] = some MESSAGE_SIZE_MAX ∧
    (onMessage freshDC 0 (0 :: [66, 4, 32, 66, 7, 0, 160, 0, 0])).1.buffer =
      some { cap := MESSAGE_SIZE_MAX, data := [66, 4, 32, 66, 7, 0, 160, 0, 0] } := by
  refine ⟨by decide, ?_, by decide, ?_⟩
  · exact ((claimC3_size_bound freshDC 0 0 [66, 4, 32, 66, 7, 0, 160, 0, 1]
      (MESSAGE_SIZE_MAX + 1) rfl rfl (by decide) (by decide) (by decide)).1
      (by decide)).2.2
  · exact ((claimC3_size_bound freshDC 0 0 [66, 4, 32, 66, 7, 0, 160, 0, 0]
      MESSAGE_SIZE_MAX rfl rfl (by decide) (by decide) (by decide)).2 rfl).1

/-- Claim C4, counterexample to the claim as stated: on a fresh open channel
(empty buffer, `receivingTag = -1`), a non-empty chunk with tag `5` differs
from `(receivingTag + 1) mod 256 = 0` (and from the source's actual modulus
255), yet `_onMessage` fires no `error`, does not close, and leaves the state
untouched: the mismatching chunk is only logged and dropped (DataChannel.js
lines 152-155). -/
theorem claimC4_counterexample :
    (5 : Int) ≠ (freshDC.receivingTag + 1) % (UINT8_MAX : Int) ∧
    onMessage freshDC 0 [5] = (freshDC, []) := by
  decide

/-- Claim C4 (amended): for every non-empty chunk of admissible size received
while the reassembly buffer is empty on an OPEN channel, a tag differing from
`(receivingTag + 1) mod 255` makes `_onMessage` drop the chunk silently: no
`error` fires, the channel stays open, and the state is unchanged. -/
theorem claimC4_idle_tag_mismatch (s : DCState) (now : Nat) (raw : List Nat)
    (hopen : s.readyState = ReadyState.OPEN) (hbuf : s.buffer = none)
    (hne : raw ≠ []) (hlen : raw.length ≤ CHUNK_SIZE_MAX)
    (htag : (raw.headD 0 : Int) ≠ (s.receivingTag + 1) % (UINT8_MAX : Int)) :
    onMessage s now raw = (s, []) := by
  have hlen0 : ¬ raw.length = 0 := by simpa using hne
  simp only [onMessage]
  rw [if_neg (by simp [hopen]), if_neg hlen0, if_neg (by omega),
    if_neg (by intro h2; exact htag h2.2)]
  simp only [onMessageTail, hbuf]

theorem claimC4_witness :
    ([5] : List Nat) ≠ [] ∧
    ((5 : Nat) : Int) ≠ (freshDC.receivingTag + 1) % (UINT8_MAX : Int) ∧
    onMessage freshDC 0 [5] = (freshDC, []) :=
  ⟨by decide, by decide,
   claimC4_idle_tag_mismatch freshDC 0 [5] rfl rfl (by decide) (by decide) (by decide)⟩

/-- Every chunk emitted by `_sendChunked` carries the tag it was called with
as its first byte. -/
theorem sendChunked_tags (tag : Nat) (m : List Nat) (c : List Nat)
    (hc : c ∈ sendChunked tag m) : chunkTag c = tag := by
  rw [sendChunked] at hc
  by_cases h0 : m = []
  · rw [if_pos h0] at hc
    cases hc
  · rw [if_neg h0] at hc
    by_cases h1 : CHUNK_SIZE_MAX ≤ m.length + 1
    · rw [if_pos h1] at hc
      rcases List.mem_cons.mp hc with h2 | h2
      · subst h2; rfl
      · exact sendChunked_tags tag (m.drop (CHUNK_SIZE_MAX - 1)) c h2
    · rw [if_neg h1] at hc
      rcases List.mem_cons.mp hc with h2 | h2
      · subst h2; rfl
      · cases h2
termination_by m.length
decreasing_by
  simp only [List.length_drop]
  simp only [CHUNK_SIZE_MAX] at h1 ⊢
  omega

/-- A non-empty message produces at least one chunk. -/
theorem sendChunked_ne_nil (tag : Nat) (m : List Nat) (hm : m ≠ []) :
    sendChunked tag m ≠ [] := by
  rw [sendChunked, if_neg hm]
  by_cases h1 : CHUNK_SIZE_MAX ≤ m.length + 1
  · rw [if_pos h1]; simp
  · rw [if_neg h1]; simp

/-- Within the block of chunks of a single message, adjacent entries share the
message index, so the cross-message tag relation holds vacuously. -/
theorem chain_same_idx (idx : Nat) (l : List (List Nat)) :
    List.Chain'
      (fun a b : Nat × List Nat =>
        a.1 ≠ b.1 → chunkTag b.2 = (chunkTag a.2 + 1) % UINT8_MAX)
      (l.map (fun c => (idx, c))) := by
  induction l with
  | nil => simp
  | cons c rest ih =>
    cases rest with
    | nil => simp
    | cons c2 rest2 =>
      rw [List.map_cons, List.map_cons, List.chain'_cons]
      exact ⟨fun h => absurd rfl h, by simpa using ih⟩

/-- The trace of a send sequence whose first message is non-empty starts with
a chunk of the first message, carrying the current sending tag. -/
theorem sendTrace_head (t0 i0 : Nat) (m : List Nat) (rest : List (List Nat))
    (hm : m ≠ []) :
    ∃ c, (sendTrace t0 i0 (m :: rest)).head? = some (i0, c) ∧ chunkTag c = t0 := by
  have hne := sendChunked_ne_nil t0 m hm
  rcases hsc : sendChunked t0 m with _ | ⟨c, cs⟩
  · exact absurd hsc hne
  · refine ⟨c, ?_, ?_⟩
    · simp [sendTrace, hsc]
    · exact sendChunked_tags t0 m c (hsc ▸ List.mem_cons_self c cs)

/-- Tag monotonicity of the emitted chunk trace: across a send sequence of
non-empty messages, any two consecutive chunks belonging to different messages
have successor tags modulo `UINT8_MAX = 255`. -/
theorem sendTrace_chain (msgs : List (List Nat)) (t0 i0 : Nat)
    (h : ∀ m ∈ msgs, m ≠ []) :
    List.Chain'
      (fun a b : Nat × List Nat =>
        a.1 ≠ b.1 → chunkTag b.2 = (chunkTag a.2 + 1) % UINT8_MAX)
      (sendTrace t0 i0 msgs) := by
  induction msgs generalizing t0 i0 with
  | nil => simp [sendTrace]
  | cons m rest ih =>
    rw [sendTrace]
    refine List.Chain'.append (chain_same_idx i0 _)
      (ih ((t0 + 1) % UINT8_MAX) (i0 + 1) (fun m2 hm2 => h m2 (List.mem_cons_of_mem m hm2))) ?_
    intro x hx y hy hxy
    obtain ⟨hlne, hxl⟩ := List.mem_getLast?_eq_getLast hx
    have hxmem : x ∈ (sendChunked t0 m).map (fun c => (i0, c)) := hxl ▸ List.getLast_mem hlne
    obtain ⟨c, hc, hcx⟩ := List.mem_map.mp hxmem
    cases rest with
    | nil => simp [sendTrace] at hy
    | cons m2 rest2 =>
      obtain ⟨c2, hc2, hct2⟩ :=
        sendTrace_head ((t0 + 1) % UINT8_MAX) (i0 + 1) m2 rest2
          (h m2 (List.mem_cons_of_mem m (List.mem_cons_self m2 rest2)))
      rw [hc2] at hy
      cases hy
      rw [hct2, ← hcx]
      simp only []
      rw [sendChunked_tags t0 m c hc]

/-- Claim C5 (amended): over any sequence of non-empty messages sent from a
fresh channel, consecutive emitted chunks belonging to different messages have
tags related by `+ 1 mod 255` (in particular the tag wraps from `254` to
`(254 + 1) % 255 = 0`), and the first emitted chunk, belonging to the first
message sent after construction, carries tag `0`. -/
theorem claimC5_tag_monotonic (msgs : List (List Nat)) (m : List Nat)
    (rest : List (List Nat)) (h : ∀ m2 ∈ msgs, m2 ≠ []) (hcons : msgs = m :: rest) :
    List.Chain'
      (fun a b : Nat × List Nat =>
        a.1 ≠ b.1 → chunkTag b.2 = (chunkTag a.2 + 1) % UINT8_MAX)
      (sendTrace freshSend.sendingTag 0 msgs) ∧
    (∃ c, (sendTrace freshSend.sendingTag 0 msgs).head? = some (0, c) ∧
      chunkTag c = 0) ∧
    (254 + 1) % UINT8_MAX = 0 := by
  subst hcons
  refine ⟨sendTrace_chain (m :: rest) freshSend.sendingTag 0 h, ?_, by decide⟩
  exact sendTrace_head freshSend.sendingTag 0 m rest (h m (List.mem_cons_self m rest))

theorem claimC5_witness :
    (∀ m2 ∈ ([[1], [2]] : List (List Nat)), m2 ≠ []) ∧
    List.Chain'
      (fun a b : Nat × List Nat =>
        a.1 ≠ b.1 → chunkTag b.2 = (chunkTag a.2 + 1) % UINT8_MAX)
      (sendTrace freshSend.sendingTag 0 [[1], [2]]) ∧
    (∃ c, (sendTrace freshSend.sendingTag 0 [[1], [2]]).head? = some (0, c) ∧
      chunkTag c = 0) := by
  have h := claimC5_tag_monotonic [[1], [2]] [1] [[2]] (by decide) rfl
  exact ⟨by decide, h.1, h.2.1⟩

/-- Claim C5, counterexample to the claim as stated: sending a zero-length
message consumes a tag without emitting any chunk, so the trace of sends
`[1]`, `[]`, `[1]` from a fresh channel is two consecutive chunks of different
messages with tags `0` and `2`, and `2 ≠ (0 + 1) % 255`. -/
theorem claimC5_counterexample :
    sendTrace freshSend.sendingTag 0 [[1], [], [1]] = [(0, [0, 1]), (2, [2, 1])] ∧
    ¬ List.Chain'
      (fun a b : Nat × List Nat =>
        a.1 ≠ b.1 → chunkTag b.2 = (chunkTag a.2 + 1) % UINT8_MAX)
      (sendTrace freshSend.sendingTag 0 [[1], [], [1]]) := by
  have h : sendTrace freshSend.sendingTag 0 [[1], [], [1]] =
      [(0, [0, 1]), (2, [2, 1])] := by
    rw [sendTrace, sendTrace, sendTrace, sendTrace]
    simp [sendChunked, freshSend, CHUNK_SIZE_MAX, UINT8_MAX]
  refine ⟨h, ?_⟩
  rw [h, List.chain'_cons]
  intro hcontra
  have h2 := hcontra.1 (by decide)
  simp [chunkTag, UINT8_MAX] at h2

/-- `readUint32BE` only inspects the first four bytes. -/
theorem readUint32BE_take (l : List Nat) (k : Nat) (hk : 4 ≤ k) (hl : 4 ≤ l.length) :
    readUint32BE (l.take k) = readUint32BE l := by
  rcases l with _ | ⟨b0, l⟩
  · simp at hl
  rcases l with _ | ⟨b1, l⟩
  · simp at hl
  rcases l with _ | ⟨b2, l⟩
  · simp at hl
  rcases l with _ | ⟨b3, l⟩
  · simp at hl
  obtain ⟨k4, rfl⟩ : ∃ k4, k = k4 + 4 := ⟨k - 4, by omega⟩
  rfl

/-- `peekLength` reads only the frame header, so it gives the same answer on
the first-chunk prefix of a message. -/
theorem peekLength_take (m : List Nat) (n : Nat) (h : peekLength m = some n) :
    peekLength (m.take (CHUNK_SIZE_MAX - 1)) = some n := by
  obtain ⟨h1, h2, h3⟩ := peekLength_inv m n h
  have h4 : (m.take (CHUNK_SIZE_MAX - 1)).take 4 = m.take 4 := by
    rw [List.take_take]
    norm_num [CHUNK_SIZE_MAX]
  have h5 : 9 ≤ (m.take (CHUNK_SIZE_MAX - 1)).length := by
    rw [List.length_take]
    simp only [CHUNK_SIZE_MAX]
    omega
  have h6 : readUint32BE ((m.take (CHUNK_SIZE_MAX - 1)).drop 5) = n := by
    rw [List.drop_take,
      readUint32BE_take (m.drop 5) (CHUNK_SIZE_MAX - 1 - 5)
        (by norm_num [CHUNK_SIZE_MAX]) (by rw [List.length_drop]; omega)]
    exact h3.symm
  unfold peekLength
  rw [if_pos ⟨h4.trans h1, h5⟩, h6]

/-- One unfolding of `_sendChunked` on a non-empty message: one chunk of at
most `CHUNK_SIZE_MAX` bytes followed by the chunks of the remainder. -/
theorem sendChunked_cons (tag : Nat) (m : List Nat) (hm : m ≠ []) :
    sendChunked tag m =
      (tag :: m.take (CHUNK_SIZE_MAX - 1)) ::
        sendChunked tag (m.drop (CHUNK_SIZE_MAX - 1)) := by
  rw [sendChunked, if_neg hm]
  by_cases h1 : CHUNK_SIZE_MAX ≤ m.length + 1
  · rw [if_pos h1]
  · rw [if_neg h1]
    have h2 : m.length ≤ CHUNK_SIZE_MAX - 1 := by
      simp only [CHUNK_SIZE_MAX] at h1 ⊢
      omega
    rw [List.take_of_length_le h2, List.drop_eq_nil_of_le h2]
    rw [sendChunked]
    simp

/-- While a message is being reassembled, `_onMessage` skips the new-message
detection and goes straight to the continuation handling. -/
theorem onMessage_cont (s : DCState) (b : ReassemblyBuffer) (now tag : Nat)
    (chunk : List Nat)
    (hopen : s.readyState = ReadyState.OPEN) (hbuf : s.buffer = some b)
    (hlen : chunk.length + 1 ≤ CHUNK_SIZE_MAX) :
    onMessage s now (tag :: chunk) = onMessageTail s now tag chunk := by
  simp only [onMessage, List.headD_cons, List.tail_cons, List.length_cons]
  rw [if_neg (by simp [hopen]), if_neg (by omega), if_neg (by omega),
    if_neg (by simp [hbuf])]

/-- Feeding the chunk sequence of the remaining bytes `rest` into a channel
that is assembling a message with `data` already written reassembles
`data ++ rest`: exactly one `message` event, no `error`, and an empty buffer
at the end. -/
theorem feed_sendChunked (rest data : List Nat) (ty tag : Nat)
    (tmrs : List (String × TimerEntry)) (last now : Nat) (hne : rest ≠ []) :
    ∃ evs,
      feed (asmState (data.length + rest.length) data ty tag tmrs last) now
          (sendChunked tag rest) =
        ({ buffer := none, msgType := ty, receivingTag := (tag : Int),
           readyState := ReadyState.OPEN, expected := [], timers := tmrs,
           lastChunkReceivedAt := now }, evs) ∧
      evs.filter isMessageEv = [DCEvent.message (data ++ rest)] ∧
      evs.filter isErrorEv = [] := by
  rw [sendChunked_cons tag rest hne]
  by_cases hfull : rest.length ≤ CHUNK_SIZE_MAX - 1
  · have htake : rest.take (CHUNK_SIZE_MAX - 1) = rest := List.take_of_length_le hfull
    have hdrop : rest.drop (CHUNK_SIZE_MAX - 1) = [] := List.drop_eq_nil_of_le hfull
    have h0 : sendChunked tag ([] : List Nat) = [] := by
      rw [sendChunked]
      simp
    rw [htake, hdrop, h0]
    refine ⟨[DCEvent.message (data ++ rest)], ?_, by simp [isMessageEv], by simp [isErrorEv]⟩
    simp only [feed]
    rw [onMessage_cont _ { cap := data.length + rest.length, data := data } now tag rest
      rfl rfl (by simp only [CHUNK_SIZE_MAX] at hfull ⊢; omega)]
    rw [onMessageTail_complete _ { cap := data.length + rest.length, data := data } now tag rest
      rfl rfl rfl]
    rfl
  · have hlt : CHUNK_SIZE_MAX - 1 < rest.length := by omega
    have hlen1 : (rest.take (CHUNK_SIZE_MAX - 1)).length = CHUNK_SIZE_MAX - 1 := by
      rw [List.length_take]
      omega
    have heq1 : onMessage (asmState (data.length + rest.length) data ty tag tmrs last) now
        (tag :: rest.take (CHUNK_SIZE_MAX - 1)) =
        (asmState (data.length + rest.length) (data ++ rest.take (CHUNK_SIZE_MAX - 1))
           ty tag tmrs now,
         [DCEvent.chunk (data ++ rest.take (CHUNK_SIZE_MAX - 1))]) := by
      rw [onMessage_cont _ { cap := data.length + rest.length, data := data } now tag
        (rest.take (CHUNK_SIZE_MAX - 1)) rfl rfl (by simp only [CHUNK_SIZE_MAX] at hlen1 ⊢; omega)]
      obtain ⟨timers2, heq, htm⟩ := onMessageTail_incomplete
        (asmState (data.length + rest.length) data ty tag tmrs last)
        { cap := data.length + rest.length, data := data } now tag
        (rest.take (CHUNK_SIZE_MAX - 1)) rfl rfl (by dsimp only; rw [hlen1]; omega)
      rw [heq, htm rfl]
      rfl
    have hne2 : rest.drop (CHUNK_SIZE_MAX - 1) ≠ [] := by
      intro h2
      have h3 := congrArg List.length h2
      rw [List.length_drop] at h3
      simp at h3
      omega
    obtain ⟨evs2, hfeed2, hm2, he2⟩ :=
      feed_sendChunked (rest.drop (CHUNK_SIZE_MAX - 1))
        (data ++ rest.take (CHUNK_SIZE_MAX - 1)) ty tag tmrs now now hne2
    have hcap2 : (data ++ rest.take (CHUNK_SIZE_MAX - 1)).length +
        (rest.drop (CHUNK_SIZE_MAX - 1)).length = data.length + rest.length := by
      rw [List.length_append, List.length_take, List.length_drop]
      omega
    rw [hcap2] at hfeed2
    refine ⟨DCEvent.chunk (data ++ rest.take (CHUNK_SIZE_MAX - 1)) :: evs2, ?_, ?_, ?_⟩
    · simp only [feed]
      rw [heq1]
      dsimp only
      rw [hfeed2]
      rfl
    · simp only [List.filter_cons, isMessageEv, List.append_assoc,
        List.take_append_drop] at hm2 ⊢
      exact hm2
    · simp only [List.filter_cons, isErrorEv] at he2 ⊢
      exact he2
termination_by rest.length
decreasing_by
  rw [List.length_drop]
  simp only [CHUNK_SIZE_MAX] at hfull ⊢
  omega

/-- Claim C2 (amended): for every byte string `m` with
`|m| <= MESSAGE_SIZE_MAX` whose frame header is well-formed and declares
exactly `|m|` (`peekLength m = some |m|`, which forces the magic prefix and
`|m| >= 9`), feeding the chunk sequence produced by `send(m)` into a fresh
open DataChannel fires exactly one `message` event whose bytes equal `m`,
fires no `error` event, and leaves the reassembly buffer empty. -/
theorem claimC2_chunk_roundtrip (now : Nat) (m : List Nat)
    (hmax : m.length ≤ MESSAGE_SIZE_MAX) (hpeek : peekLength m = some m.length) :
    send freshSend m =
      some ({ sendingTag := (freshSend.sendingTag + 1) % UINT8_MAX },
            sendChunked freshSend.sendingTag m) ∧
    (feed freshDC now (sendChunked freshSend.sendingTag m)).2.filter isMessageEv =
      [DCEvent.message m] ∧
    (feed freshDC now (sendChunked freshSend.sendingTag m)).2.filter isErrorEv = [] ∧
    (feed freshDC now (sendChunked freshSend.sendingTag m)).1.buffer = none := by
  have h9 : 9 ≤ m.length := (peekLength_inv m m.length hpeek).2.1
  have hne : m ≠ [] := by
    intro h2
    rw [h2] at h9
    simp at h9
  refine ⟨by simp [send, hmax], ?_⟩
  have htag0 : ((0 : Nat) : Int) = (freshDC.receivingTag + 1) % (UINT8_MAX : Int) := by
    decide
  have hlenTake : (m.take (CHUNK_SIZE_MAX - 1)).length + 1 ≤ CHUNK_SIZE_MAX := by
    rw [List.length_take]
    simp only [CHUNK_SIZE_MAX]
    omega
  have hfirst := onMessage_detect freshDC now 0 (m.take (CHUNK_SIZE_MAX - 1)) m.length
    rfl rfl htag0 hlenTake (peekLength_take m m.length hpeek) hmax
  have hsend0 : sendChunked freshSend.sendingTag m = sendChunked 0 m := rfl
  rw [hsend0, sendChunked_cons 0 m hne]
  by_cases hsmall : m.length ≤ CHUNK_SIZE_MAX - 1
  · have htake : m.take (CHUNK_SIZE_MAX - 1) = m := List.take_of_length_le hsmall
    have hdrop : m.drop (CHUNK_SIZE_MAX - 1) = [] := List.drop_eq_nil_of_le hsmall
    have h0 : sendChunked 0 ([] : List Nat) = [] := by
      rw [sendChunked]
      simp
    rw [htake, hdrop, h0]
    rw [htake] at hfirst
    have hcomplete := onMessageTail_complete
      { freshDC with
        buffer := some { cap := m.length, data := [] },
        receivingTag := ((0 : Nat) : Int),
        msgType := m.getD 4 0 }
      { cap := m.length, data := [] } now 0 m rfl rfl (by simp)
    simp only [feed]
    rw [hfirst, hcomplete]
    exact ⟨by simp [isMessageEv], by simp [isErrorEv], rfl⟩
  · have hlt2 : CHUNK_SIZE_MAX - 1 < m.length := by omega
    have hlen1 : (m.take (CHUNK_SIZE_MAX - 1)).length = CHUNK_SIZE_MAX - 1 := by
      rw [List.length_take]
      omega
    have heq1 : onMessage freshDC now (0 :: m.take (CHUNK_SIZE_MAX - 1)) =
        (asmState m.length (m.take (CHUNK_SIZE_MAX - 1))
           ((m.take (CHUNK_SIZE_MAX - 1)).getD 4 0) 0 [] now,
         [DCEvent.chunk (m.take (CHUNK_SIZE_MAX - 1))]) := by
      rw [hfirst]
      obtain ⟨timers2, heq, htm⟩ := onMessageTail_incomplete
        { freshDC with
          buffer := some { cap := m.length, data := [] },
          receivingTag := ((0 : Nat) : Int),
          msgType := (m.take (CHUNK_SIZE_MAX - 1)).getD 4 0 }
        { cap := m.length, data := [] } now 0 (m.take (CHUNK_SIZE_MAX - 1)) rfl rfl
        (by dsimp only; rw [hlen1]; simp only [List.length_nil]; omega)
      rw [heq, htm rfl]
      rfl
    obtain ⟨evs2, hfeed2, hm2, he2⟩ := feed_sendChunked (m.drop (CHUNK_SIZE_MAX - 1))
      (m.take (CHUNK_SIZE_MAX - 1)) ((m.take (CHUNK_SIZE_MAX - 1)).getD 4 0) 0 [] now now
      (by
        intro h2
        have h3 := congrArg List.length h2
        rw [List.length_drop] at h3
        simp at h3
        omega)
    have hcap2 : (m.take (CHUNK_SIZE_MAX - 1)).length +
        (m.drop (CHUNK_SIZE_MAX - 1)).length = m.length := by
      rw [List.length_take, List.length_drop]
      omega
    rw [hcap2] at hfeed2
    have hm3 : evs2.filter isMessageEv = [DCEvent.message m] := by
      rw [hm2, List.take_append_drop]
    simp only [feed]
    rw [heq1]
    dsimp only
    rw [hfeed2]
    dsimp only
    refine ⟨?_, ?_, rfl⟩
    · simp [List.filter_append, isMessageEv, hm3]
    · simp [List.filter_append, isErrorEv, he2]

theorem claimC2_witness :
    List.length [66, 4, 32, 66, 7, 0, 0, 0, 13, 1, 2, 3, 4] ≤ MESSAGE_SIZE_MAX ∧
    peekLength [66, 4, 32, 66, 7, 0, 0, 0, 13, 1, 2, 3, 4] =
      some (List.length [66, 4, 32, 66, 7, 0, 0, 0, 13, 1, 2, 3, 4]) ∧
    (feed freshDC 0 (sendChunked freshSend.sendingTag
        [66, 4, 32, 66, 7, 0, 0, 0, 13, 1, 2, 3, 4])).2.filter isMessageEv =
      [DCEvent.message [66, 4, 32, 66, 7, 0, 0, 0, 13, 1, 2, 3, 4]] :=
  ⟨by decide, by decide,
   (claimC2_chunk_roundtrip 0 [66, 4, 32, 66, 7, 0, 0, 0, 13, 1, 2, 3, 4]
     (by decide) (by decide)).2.1⟩

/-- Claim C2, counterexample to the claim as stated: the empty byte string
satisfies `|m| <= MESSAGE_SIZE_MAX`, but `send` emits no chunks for it, so a
fresh DataChannel fed the resulting (empty) chunk sequence fires zero
`message` events instead of exactly one. -/
theorem claimC2_counterexample :
    List.length ([] : List Nat) ≤ MESSAGE_SIZE_MAX ∧
    send freshSend [] = some ({ sendingTag := 1 % UINT8_MAX }, []) ∧
    (feed freshDC 0 ([] : List (List Nat))).2.filter isMessageEv = [] := by
  have h0 : sendChunked freshSend.sendingTag ([] : List Nat) = [] := by
    rw [sendChunked]
    simp
  refine ⟨by decide, ?_, rfl⟩
  simp only [send]
  rw [if_pos (by decide), h0]
  rfl

end Proto
